import Mathlib

/-!
Verification of `generate-subtitles.py`: a shallow embedding of the
program's pure core (timestamp formatting, text normalization, cue
building, WebVTT serialization, metadata assembly) and of the
orchestrator's control flow, together with theorems settling the
specification's claims.

Modelling conventions:
* Python floats are modelled as exact rationals (`ℚ`); the spec speaks
  at the real-number level of abstraction.
* Python `round` is round-half-to-even, modelled by `pyRound`.
* Strings are Lean `String`s / `List Char`; Python whitespace is
  modelled by `pyIsSpace` (the ASCII whitespace characters).
* File and console I/O is modelled by recording, in a result record,
  what content would be written where.
-/

/-- ASCII whitespace, as recognized by Python's `str.split` / `str.strip`
(space, tab, newline, carriage return, vertical tab, form feed). -/
def pyIsSpace (c : Char) : Bool :=
  c == ' ' || c == '\t' || c == '\n' || c == '\r' ||
    c == Char.ofNat 11 || c == Char.ofNat 12

/-- Floor of a rational, computed from the normalized numerator and
denominator (`Int` division is Euclidean, hence floor for a positive
denominator). -/
def ratFloor (q : ℚ) : ℤ := q.num / (q.den : ℤ)

theorem ratFloor_eq_floor (q : ℚ) : ratFloor q = ⌊q⌋ :=
  Rat.floor_def.symm

/-- Python 3 `round` on an exact rational: nearest integer, ties to even. -/
def pyRound (q : ℚ) : ℤ :=
  let f := ratFloor q
  let r := q - f
  if r < 1/2 then f
  else if 1/2 < r then f + 1
  else if f % 2 = 0 then f else f + 1

/-- Decimal rendering of `n` left-padded with `'0'` to width `w`,
modelling Python's format spec `{n:0wd}`. -/
def padZ (w : Nat) (n : Nat) : String :=
  String.mk (List.replicate (w - (toString n).length) '0') ++ toString n

/-- The function `format_timestamp` from `generate-subtitles.py`: clamp to zero,
convert to whole milliseconds with Python rounding, then peel off
hours / minutes / seconds by repeated subtraction exactly as the
source does. -/
def format_timestamp (seconds : ℚ) : String :=
  let total0 := (max 0 (pyRound (seconds * 1000))).toNat
  let hours := total0 / 3600000
  let total1 := total0 - hours * 3600000
  let minutes := total1 / 60000
  let total2 := total1 - minutes * 60000
  let secs := total2 / 1000
  let milliseconds := total2 - secs * 1000
  padZ 2 hours ++ ":" ++ padZ 2 minutes ++ ":" ++ padZ 2 secs ++ "." ++ padZ 3 milliseconds

/-- The §4.1 description of the timestamp format, stated with integer
division and remainder by 3,600,000 / 60,000 / 1,000 (the spec's
wording), to be compared with the subtraction-based source code. -/
def format_timestamp_spec (seconds : ℚ) : String :=
  let total := (max 0 (pyRound (seconds * 1000))).toNat
  padZ 2 (total / 3600000) ++ ":" ++ padZ 2 (total % 3600000 / 60000) ++ ":" ++
    padZ 2 (total % 60000 / 1000) ++ "." ++ padZ 3 (total % 1000)

theorem format_timestamp_eq_spec (s : ℚ) :
    format_timestamp s = format_timestamp_spec s := by
  simp only [format_timestamp, format_timestamp_spec]
  set t := (max 0 (pyRound (s * 1000))).toNat with ht
  have h1 : t - t / 3600000 * 3600000 = t % 3600000 := by omega
  rw [h1]
  have h2 : t % 3600000 - t % 3600000 / 60000 * 60000 = t % 60000 := by omega
  rw [h2]
  have h3 : t % 60000 - t % 60000 / 1000 * 1000 = t % 1000 := by omega
  rw [h3]

theorem pyRound_natCast (n : ℕ) : pyRound (n : ℚ) = n := by
  unfold pyRound ratFloor
  norm_num

theorem pyRound_nonpos (q : ℚ) (hq : q < 0) : pyRound q ≤ 0 := by
  have hf : ratFloor q < 0 := by
    rw [ratFloor_eq_floor]
    have h : (⌊q⌋ : ℚ) < 0 := lt_of_le_of_lt (Int.floor_le q) hq
    exact_mod_cast h
  simp only [pyRound]
  split_ifs <;> omega

theorem format_timestamp_ms (s : ℚ) (n : ℕ) (h : s * 1000 = (n : ℚ)) :
    format_timestamp s =
      padZ 2 (n / 3600000) ++ ":" ++ padZ 2 (n % 3600000 / 60000) ++ ":" ++
        padZ 2 (n % 60000 / 1000) ++ "." ++ padZ 3 (n % 1000) := by
  rw [format_timestamp_eq_spec]
  simp only [format_timestamp_spec, h, pyRound_natCast]
  have hm : (max 0 ((n : ℤ))).toNat = n := by omega
  rw [hm]

/-- Python `str.strip()`: remove leading and trailing whitespace. -/
def pyStrip (l : List Char) : List Char :=
  ((l.dropWhile pyIsSpace).reverse.dropWhile pyIsSpace).reverse

/-- Python `str.split()` with no argument: the maximal runs of
non-whitespace characters, in order; no empty tokens are produced. -/
def pySplit : List Char → List (List Char)
  | [] => []
  | c :: cs =>
    if pyIsSpace c then pySplit cs
    else (c :: cs.takeWhile (fun d => !pyIsSpace d)) ::
      pySplit (cs.dropWhile (fun d => !pyIsSpace d))
termination_by l => l.length
decreasing_by
  · simp only [List.length_cons]; omega
  · simp only [List.length_cons]
    have h := (List.dropWhile_sublist (fun d => !pyIsSpace d) (l := cs)).length_le
    omega

/-- Python `" ".join(tokens)`. -/
def joinSp : List (List Char) → List Char
  | [] => []
  | [t] => t
  | t :: ts => t ++ ' ' :: joinSp ts

/-- The function `normalize_text` from the source:
`" ".join((value or "").strip().split())`, an absent value modelled
as `none`. -/
def normalize_text (value : Option String) : String :=
  String.mk (joinSp (pySplit (pyStrip (value.getD "").data)))

/-- Whitespace-run collapsing as the spec words it (§4.2): every run of
whitespace becomes a single space. -/
def collapseWs : List Char → List Char
  | [] => []
  | c :: cs =>
    if pyIsSpace c then ' ' :: collapseWs (cs.dropWhile pyIsSpace)
    else c :: collapseWs cs
termination_by l => l.length
decreasing_by
  · simp only [List.length_cons]
    have h := (List.dropWhile_sublist pyIsSpace (l := cs)).length_le
    omega
  · simp only [List.length_cons]; omega

/-- The §4.2 description of `normalize_text`: leading/trailing
whitespace removed, internal runs collapsed to single spaces. -/
def normalize_text_spec (value : Option String) : String :=
  String.mk (collapseWs (pyStrip (value.getD "").data))

theorem pySplit_cons (c : Char) (cs : List Char) :
    pySplit (c :: cs) = if pyIsSpace c then pySplit cs
      else (c :: cs.takeWhile (fun d => !pyIsSpace d)) ::
        pySplit (cs.dropWhile (fun d => !pyIsSpace d)) := by
  simp only [pySplit]

theorem collapseWs_cons (c : Char) (cs : List Char) :
    collapseWs (c :: cs) = if pyIsSpace c then ' ' :: collapseWs (cs.dropWhile pyIsSpace)
      else c :: collapseWs cs := by
  simp only [collapseWs]

theorem joinSp_cons_cons (t t2 : List Char) (ts : List (List Char)) :
    joinSp (t :: t2 :: ts) = t ++ ' ' :: joinSp (t2 :: ts) := rfl

theorem joinSp_cons_head (c : Char) (t : List Char) (ts : List (List Char)) :
    joinSp ((c :: t) :: ts) = c :: joinSp (t :: ts) := by
  cases ts with
  | nil => rfl
  | cons t2 ts2 => rfl

theorem joinSp_ne_nil (t : List Char) (ts : List (List Char)) (ht : t ≠ []) :
    joinSp (t :: ts) ≠ [] := by
  cases ts with
  | nil => simpa [joinSp] using ht
  | cons t2 ts2 =>
    rw [joinSp_cons_cons]
    cases t with
    | nil => exact absurd rfl ht
    | cons a t' => simp

theorem pySplit_dropWhile (l : List Char) :
    pySplit (l.dropWhile pyIsSpace) = pySplit l := by
  induction l with
  | nil => rfl
  | cons c cs ih =>
    by_cases h : pyIsSpace c
    · rw [List.dropWhile_cons_of_pos h, ih, pySplit_cons, if_pos h]
    · rw [List.dropWhile_cons_of_neg h]

theorem head_any_dropWhile (l : List Char) :
    ((l.dropWhile pyIsSpace).head?.any pyIsSpace) = false := by
  have h := List.head?_dropWhile_not pyIsSpace l
  cases hh : (l.dropWhile pyIsSpace).head? with
  | none => rfl
  | some d =>
    rw [hh] at h
    simpa [Option.any] using h

theorem noTrail_of_cons {c : Char} {cs : List Char}
    (h : ∀ x, ((c :: cs : List Char)).getLast? = some x → pyIsSpace x = false)
    (hcs : cs ≠ []) : ∀ x, cs.getLast? = some x → pyIsSpace x = false := by
  intro x hx
  apply h
  cases cs with
  | nil => exact absurd rfl hcs
  | cons d ds => rw [List.getLast?_cons_cons]; exact hx

theorem noTrail_dropWhile {p : Char → Bool} {l : List Char}
    (h : ∀ x, l.getLast? = some x → pyIsSpace x = false) :
    ∀ x, (l.dropWhile p).getLast? = some x → pyIsSpace x = false := by
  intro x hx
  apply h
  rw [← List.takeWhile_append_dropWhile p l, List.getLast?_append, hx]
  rfl

theorem pySplit_ne_nil : ∀ (l : List Char) (x : Char),
    x ∈ l → pyIsSpace x = false → pySplit l ≠ []
  | [], x, hx, _ => by simp at hx
  | c :: cs, x, hx, hxw => by
    rw [pySplit_cons]
    by_cases h : pyIsSpace c
    · rw [if_pos h]
      rcases List.mem_cons.mp hx with rfl | hmem
      · rw [h] at hxw; cases hxw
      · exact pySplit_ne_nil cs x hmem hxw
    · rw [if_neg h]; simp

/-- The token/collapse correspondence: on a list with no trailing
whitespace, collapsing runs agrees with splitting-and-rejoining, up to
one leading space when the list starts with whitespace. -/
theorem collapse_join (n : ℕ) : ∀ l : List Char, l.length ≤ n →
    (∀ x, l.getLast? = some x → pyIsSpace x = false) →
    collapseWs l =
      if (l.head?.any pyIsSpace) = true then ' ' :: joinSp (pySplit l)
      else joinSp (pySplit l) := by
  induction n with
  | zero =>
    intro l hl _
    have h0 : l = [] := List.eq_nil_of_length_eq_zero (Nat.le_zero.mp hl)
    subst h0
    simp [collapseWs, pySplit, joinSp]
  | succ n ih =>
    intro l hl hT
    cases l with
    | nil => simp [collapseWs, pySplit, joinSp]
    | cons c cs =>
      rw [collapseWs_cons]
      by_cases h : pyIsSpace c
      · rw [if_pos h]
        rw [show ((c :: cs : List Char).head?.any pyIsSpace) = true by simp [Option.any, h]]
        rw [if_pos rfl]
        congr 1
        rw [pySplit_cons, if_pos h, ← pySplit_dropWhile cs]
        have hlen : (cs.dropWhile pyIsSpace).length ≤ n := by
          have h1 := (List.dropWhile_sublist pyIsSpace (l := cs)).length_le
          simp only [List.length_cons] at hl
          omega
        have hcs : cs ≠ [] := by
          intro h0
          subst h0
          exact absurd (hT c rfl) (by simp [h])
        have hT2 : ∀ x, (cs.dropWhile pyIsSpace).getLast? = some x → pyIsSpace x = false :=
          noTrail_dropWhile (noTrail_of_cons hT hcs)
        rw [ih (cs.dropWhile pyIsSpace) hlen hT2, head_any_dropWhile]
        simp
      · rw [if_neg h]
        rw [show ((c :: cs : List Char).head?.any pyIsSpace) = false by simp [Option.any, h]]
        simp only [Bool.false_eq_true, if_false]
        cases cs with
        | nil => simp [collapseWs, pySplit, joinSp, h]
        | cons d ds =>
          have hlen : (d :: ds : List Char).length ≤ n := by
            simp only [List.length_cons] at hl ⊢
            omega
          have hT2 : ∀ x, ((d :: ds : List Char)).getLast? = some x → pyIsSpace x = false :=
            noTrail_of_cons hT (by simp)
          have ihcs := ih (d :: ds) hlen hT2
          by_cases hd : pyIsSpace d
          · rw [show (((d :: ds : List Char)).head?.any pyIsSpace) = true by
              simp [Option.any, hd]] at ihcs
            rw [if_pos rfl] at ihcs
            rw [ihcs]
            rw [pySplit_cons c (d :: ds), if_neg h, List.takeWhile_cons_of_neg (by simp [hd]),
              List.dropWhile_cons_of_neg (by simp [hd])]
            have hlast : ∃ y, ((d :: ds : List Char)).getLast? = some y := by
              have h1 : ((d :: ds : List Char)).getLast?.isSome := by
                rw [List.getLast?_isSome]; simp
              exact Option.isSome_iff_exists.mp h1
            obtain ⟨y, hy⟩ := hlast
            have hsplit := pySplit_ne_nil (d :: ds) y (List.mem_of_getLast?_eq_some hy) (hT2 y hy)
            cases hps : pySplit (d :: ds) with
            | nil => exact absurd hps hsplit
            | cons t ts => rw [joinSp_cons_head]; rfl
          · rw [show (((d :: ds : List Char)).head?.any pyIsSpace) = false by
              simp [Option.any, hd]] at ihcs
            simp only [Bool.false_eq_true, if_false] at ihcs
            rw [ihcs]
            rw [pySplit_cons c (d :: ds), if_neg h, List.takeWhile_cons_of_pos (by simp [hd]),
              List.dropWhile_cons_of_pos (by simp [hd])]
            rw [pySplit_cons d ds, if_neg hd]
            rw [joinSp_cons_head, joinSp_cons_head, joinSp_cons_head]

theorem pyStrip_getLast (l : List Char) :
    ∀ x, (pyStrip l).getLast? = some x → pyIsSpace x = false := by
  intro x hx
  unfold pyStrip at hx
  rw [List.getLast?_reverse] at hx
  have h := List.head?_dropWhile_not pyIsSpace ((l.dropWhile pyIsSpace).reverse)
  rw [hx] at h
  exact h

theorem pyStrip_head_any (l : List Char) :
    ((pyStrip l).head?.any pyIsSpace) = false := by
  unfold pyStrip
  rw [List.head?_reverse]
  cases hx : (List.dropWhile pyIsSpace (l.dropWhile pyIsSpace).reverse).getLast? with
  | none => rfl
  | some x =>
    have h1 : ((l.dropWhile pyIsSpace).reverse).getLast? = some x := by
      rw [← List.takeWhile_append_dropWhile pyIsSpace ((l.dropWhile pyIsSpace).reverse),
        List.getLast?_append, hx]
      rfl
    rw [List.getLast?_reverse] at h1
    have h := List.head?_dropWhile_not pyIsSpace l
    rw [h1] at h
    simp [Option.any, h]

/-- Refinement of §4.2: the source's strip-split-join computes exactly the
spec's trim-and-collapse normalization. -/
theorem normalize_text_eq_spec (v : Option String) :
    normalize_text v = normalize_text_spec v := by
  unfold normalize_text normalize_text_spec
  congr 1
  rw [collapse_join (pyStrip (v.getD "").data).length (pyStrip (v.getD "").data) le_rfl
    (pyStrip_getLast _), pyStrip_head_any]
  simp

theorem pySplit_tokens (n : ℕ) : ∀ l : List Char, l.length ≤ n → ∀ t ∈ pySplit l,
    t ≠ [] ∧ ∀ c ∈ t, pyIsSpace c = false := by
  induction n with
  | zero =>
    intro l hl t ht
    have h0 : l = [] := List.eq_nil_of_length_eq_zero (Nat.le_zero.mp hl)
    subst h0
    simp [pySplit] at ht
  | succ n ih =>
    intro l hl t ht
    cases l with
    | nil => simp [pySplit] at ht
    | cons c cs =>
      rw [pySplit_cons] at ht
      by_cases h : pyIsSpace c
      · rw [if_pos h] at ht
        refine ih cs ?_ t ht
        simp only [List.length_cons] at hl
        omega
      · rw [if_neg h] at ht
        rcases List.mem_cons.mp ht with rfl | hmem
        · refine ⟨by simp, ?_⟩
          intro x hx
          rcases List.mem_cons.mp hx with rfl | hx2
          · simpa using h
          · have hp := List.mem_takeWhile_imp hx2
            simpa using hp
        · refine ih (cs.dropWhile (fun d => !pyIsSpace d)) ?_ t hmem
          have h1 := (List.dropWhile_sublist (fun d => !pyIsSpace d) (l := cs)).length_le
          simp only [List.length_cons] at hl
          omega

theorem pySplit_token_append (t r : List Char) (ht : t ≠ [])
    (hc : ∀ c ∈ t, pyIsSpace c = false) :
    pySplit (t ++ r) = (t ++ r.takeWhile (fun d => !pyIsSpace d)) ::
      pySplit (r.dropWhile (fun d => !pyIsSpace d)) := by
  cases t with
  | nil => exact absurd rfl ht
  | cons a t' =>
    have ha : pyIsSpace a = false := hc a (by simp)
    rw [List.cons_append, pySplit_cons, if_neg (by simp [ha]),
      List.takeWhile_append_of_pos (fun x hx => by simp [hc x (by simp [hx])]),
      List.dropWhile_append_of_pos (fun x hx => by simp [hc x (by simp [hx])])]
    rfl

theorem pySplit_joinSp : ∀ ts : List (List Char),
    (∀ t ∈ ts, t ≠ [] ∧ ∀ c ∈ t, pyIsSpace c = false) → pySplit (joinSp ts) = ts
  | [], _ => by simp [pySplit, joinSp]
  | [t], h => by
    obtain ⟨h1, h2⟩ := h t (by simp)
    have e := pySplit_token_append t [] h1 h2
    simpa [pySplit, joinSp] using e
  | t :: t2 :: ts, h => by
    obtain ⟨h1, h2⟩ := h t (by simp)
    rw [joinSp_cons_cons, pySplit_token_append t (' ' :: joinSp (t2 :: ts)) h1 h2]
    have hsp : pyIsSpace ' ' = true := by decide
    rw [List.takeWhile_cons_of_neg (by simp [hsp]), List.dropWhile_cons_of_neg (by simp [hsp])]
    rw [show pySplit (' ' :: joinSp (t2 :: ts)) = pySplit (joinSp (t2 :: ts)) by
      rw [pySplit_cons, if_pos hsp]]
    rw [pySplit_joinSp (t2 :: ts) (fun u hu => h u (by simp [List.mem_cons.mp hu]))]
    simp

theorem pySplit_all_ws : ∀ l : List Char, (∀ c ∈ l, pyIsSpace c = true) → pySplit l = []
  | [], _ => by simp [pySplit]
  | c :: cs, h => by
    rw [pySplit_cons, if_pos (h c (by simp))]
    exact pySplit_all_ws cs (fun x hx => h x (by simp [hx]))

theorem pyStrip_subset {l : List Char} {x : Char} (hx : x ∈ pyStrip l) : x ∈ l := by
  unfold pyStrip at hx
  rw [List.mem_reverse] at hx
  have h1 := (List.dropWhile_sublist pyIsSpace (l := (l.dropWhile pyIsSpace).reverse)).subset hx
  rw [List.mem_reverse] at h1
  exact (List.dropWhile_sublist pyIsSpace (l := l)).subset h1

theorem dropWhile_eq_self_of_head {l : List Char} (h : (l.head?.any pyIsSpace) = false) :
    l.dropWhile pyIsSpace = l := by
  cases l with
  | nil => rfl
  | cons c cs =>
    have hc : pyIsSpace c = false := by simpa [Option.any] using h
    rw [List.dropWhile_cons_of_neg (by simp [hc])]

theorem pyStrip_eq_self {l : List Char} (hH : (l.head?.any pyIsSpace) = false)
    (hT : (l.getLast?.any pyIsSpace) = false) : pyStrip l = l := by
  unfold pyStrip
  rw [dropWhile_eq_self_of_head hH]
  rw [dropWhile_eq_self_of_head (by rw [List.head?_reverse]; exact hT), List.reverse_reverse]

theorem joinSp_head_any {ts : List (List Char)}
    (h : ∀ t ∈ ts, t ≠ [] ∧ ∀ c ∈ t, pyIsSpace c = false) :
    ((joinSp ts).head?.any pyIsSpace) = false := by
  cases ts with
  | nil => rfl
  | cons t ts2 =>
    obtain ⟨hne, hc⟩ := h t (by simp)
    cases t with
    | nil => exact absurd rfl hne
    | cons c t' =>
      have hcw : pyIsSpace c = false := hc c (by simp)
      cases ts2 with
      | nil => simp [joinSp, Option.any, hcw]
      | cons t2 ts3 =>
        rw [joinSp_cons_cons, List.cons_append]
        simp [Option.any, hcw]

theorem joinSp_getLast_any : ∀ ts : List (List Char),
    (∀ t ∈ ts, t ≠ [] ∧ ∀ c ∈ t, pyIsSpace c = false) →
    ((joinSp ts).getLast?.any pyIsSpace) = false
  | [], _ => rfl
  | [t], h => by
    obtain ⟨hne, hc⟩ := h t (by simp)
    cases hx : t.getLast? with
    | none =>
      rw [List.getLast?_eq_none_iff] at hx
      exact absurd hx hne
    | some x =>
      have hm : x ∈ t := List.mem_of_getLast?_eq_some hx
      have he : joinSp [t] = t := rfl
      rw [he, hx]
      simp [Option.any, hc x hm]
  | t :: t2 :: ts, h => by
    rw [joinSp_cons_cons, List.getLast?_append]
    have ih := joinSp_getLast_any (t2 :: ts) (fun u hu => h u (by simp [List.mem_cons.mp hu]))
    have hne2 : joinSp (t2 :: ts) ≠ [] := joinSp_ne_nil t2 ts (h t2 (by simp)).1
    cases hy : (joinSp (t2 :: ts)).getLast? with
    | none =>
      rw [List.getLast?_eq_none_iff] at hy
      exact absurd hy hne2
    | some y =>
      have hg : ((' ' :: joinSp (t2 :: ts) : List Char)).getLast? = some y := by
        cases hj : joinSp (t2 :: ts) with
        | nil => exact absurd hj hne2
        | cons a as =>
          rw [List.getLast?_cons_cons, ← hj]
          exact hy
      rw [hg]
      rw [hy] at ih
      simpa using ih

/-- C1: for every rational number of seconds, `format_timestamp` yields
the zero-padded `HH:MM:SS.mmm` string obtained by clamping to zero,
rounding to whole milliseconds, and decomposing by integer division by
3,600,000 / 60,000 / 1,000; in particular `format_timestamp 0` is
`"00:00:00.000"`, `format_timestamp 3661.5` is `"01:01:01.500"`, and
every negative input yields `"00:00:00.000"`. -/
theorem claim_C1 :
    (∀ s : ℚ, format_timestamp s = format_timestamp_spec s) ∧
    format_timestamp 0 = "00:00:00.000" ∧
    format_timestamp (3661.5 : ℚ) = "01:01:01.500" ∧
    (∀ s : ℚ, s < 0 → format_timestamp s = "00:00:00.000") := by
  refine ⟨format_timestamp_eq_spec, ?_, ?_, ?_⟩
  · rw [format_timestamp_ms 0 0 (by norm_num)]
    decide
  · rw [format_timestamp_ms (3661.5 : ℚ) 3661500 (by norm_num)]
    decide
  · intro s hs
    have h0 : pyRound (s * 1000) ≤ 0 :=
      pyRound_nonpos _ (mul_neg_of_neg_of_pos hs (by norm_num))
    rw [format_timestamp_eq_spec]
    simp only [format_timestamp_spec]
    rw [max_eq_left h0]
    decide

theorem claim_C1_witness : ((-1 : ℚ) < 0) ∧ format_timestamp (-1 : ℚ) = "00:00:00.000" :=
  ⟨by norm_num, claim_C1.2.2.2 (-1) (by norm_num)⟩

/-- C5: `normalize_text` removes leading/trailing whitespace and
collapses internal whitespace runs to single spaces (this is the
equality with the spec-worded `normalize_text_spec`); empty or absent
input yields `""`, all-whitespace input yields `""`, and
`"  a   b\n c "` yields `"a b c"`. -/
theorem claim_C5 :
    (∀ v : Option String, normalize_text v = normalize_text_spec v) ∧
    normalize_text none = "" ∧
    normalize_text (some "") = "" ∧
    (∀ s : String, (∀ c ∈ s.data, pyIsSpace c = true) → normalize_text (some s) = "") ∧
    normalize_text (some "  a   b\n c ") = "a b c" := by
  refine ⟨normalize_text_eq_spec, ?_, ?_, ?_, ?_⟩
  · simp [normalize_text, pyStrip, pySplit, joinSp]
  · simp [normalize_text, pyStrip, pySplit, joinSp]
  · intro s hs
    unfold normalize_text
    simp only [Option.getD_some]
    rw [pySplit_all_ws (pyStrip s.data) (fun c hc => hs c (pyStrip_subset hc))]
    rfl
  · simp [normalize_text, pyStrip, pySplit, joinSp, pyIsSpace]

theorem claim_C5_witness :
    (∀ c ∈ (" \t ".data), pyIsSpace c = true) ∧ normalize_text (some " \t ") = "" :=
  ⟨by decide, claim_C5.2.2.2.1 " \t " (by decide)⟩

theorem normalize_text_idem (v : Option String) :
    normalize_text (some (normalize_text v)) = normalize_text v := by
  unfold normalize_text
  simp only [Option.getD_some]
  have htok := pySplit_tokens (pyStrip (v.getD "").data).length (pyStrip (v.getD "").data) le_rfl
  congr 1
  rw [pyStrip_eq_self (joinSp_head_any htok) (joinSp_getLast_any _ htok)]
  rw [pySplit_joinSp _ htok]

/-- C10: normalizing an already-normalized string changes nothing. -/
theorem claim_C10 (v : Option String) :
    normalize_text (some (normalize_text v)) = normalize_text v :=
  normalize_text_idem v

/-- A raw segment as consumed by `main`: duck-typed attributes modelled
as optional fields, defaulted exactly where `getattr` defaults them
(`text` to `""`, `start` to `0.0`, `end` to `start`). The Python
attribute `end` is called `stop` here because `end` is a Lean keyword. -/
structure Segment where
  text : Option String
  start : Option ℚ
  stop : Option ℚ

/-- The per-segment body of the cue loop in `main` (source lines
100-109): normalize the text, skip the segment when it is empty,
default `start` to `0.0` and `end` to `start`, and extend `end` to
`start + 0.2` whenever `end <= start`. -/
def buildCue (seg : Segment) : Option (ℚ × ℚ × String) :=
  let text := normalize_text seg.text
  if text = "" then none
  else
    let start := seg.start.getD 0
    let e0 := seg.stop.getD start
    let e := if e0 ≤ start then start + 0.2 else e0
    some (start, e, text)

/-- The cue list built by the loop over `segments_iterable`: one pass in
stream order, appending each repaired cue. -/
def buildCues (segs : List Segment) : List (ℚ × ℚ × String) :=
  segs.filterMap buildCue

/-- The repaired cue of a segment, ignoring the emptiness test. -/
def cueOf (seg : Segment) : ℚ × ℚ × String :=
  let start := seg.start.getD 0
  let e0 := seg.stop.getD start
  (start, if e0 ≤ start then start + 0.2 else e0, normalize_text seg.text)

theorem buildCue_eq_some {seg : Segment} (h : normalize_text seg.text ≠ "") :
    buildCue seg = some (cueOf seg) := by
  simp [buildCue, cueOf, h]

theorem buildCue_eq_none {seg : Segment} (h : normalize_text seg.text = "") :
    buildCue seg = none := by
  simp [buildCue, h]

theorem buildCues_eq_filter_map (segs : List Segment) :
    buildCues segs = (segs.filter (fun s => normalize_text s.text != "")).map cueOf := by
  induction segs with
  | nil => rfl
  | cons s ss ih =>
    by_cases h : normalize_text s.text = ""
    · rw [buildCues, List.filterMap_cons, buildCue_eq_none h]
      rw [List.filter_cons, if_neg (by simp [h])]
      exact ih
    · rw [buildCues, List.filterMap_cons, buildCue_eq_some h]
      rw [List.filter_cons, if_pos (by simp [h])]
      rw [List.map_cons]
      exact congrArg _ ih

theorem cueOf_fst_lt (s : Segment) : (cueOf s).1 < (cueOf s).2.1 := by
  simp only [cueOf]
  split_ifs with h2
  · have h02 : (0 : ℚ) < 0.2 := by norm_num
    linarith
  · exact not_le.mp h2

/-- C2: the cue builder maps each raw segment, in stream order, to a
cue with defaulted start, defaulted end, and the `end <= start` repair,
skipping segments whose normalized text is empty; so the cue list is
exactly the non-empty-text segments in their original relative order,
and the two timing examples from the spec hold. -/
theorem claim_C2 :
    (∀ segs : List Segment,
      buildCues segs = (segs.filter (fun s => normalize_text s.text != "")).map cueOf) ∧
    (∀ seg : Segment, normalize_text seg.text = "" → buildCue seg = none) ∧
    (∀ seg : Segment, normalize_text seg.text ≠ "" → buildCue seg = some (cueOf seg)) ∧
    buildCue ⟨some "hello", some 1, some 1⟩ = some (1, 1.2, "hello") ∧
    buildCue ⟨some "hello", some 2, none⟩ = some (2, 2.2, "hello") := by
  refine ⟨buildCues_eq_filter_map, fun seg h => buildCue_eq_none h,
    fun seg h => buildCue_eq_some h, ?_, ?_⟩
  · have ht : normalize_text (some "hello") = "hello" := by
      simp [normalize_text, pyStrip, pySplit, joinSp, pyIsSpace]
    simp [buildCue, ht]
    norm_num
  · have ht : normalize_text (some "hello") = "hello" := by
      simp [normalize_text, pyStrip, pySplit, joinSp, pyIsSpace]
    simp [buildCue, ht]
    norm_num

theorem claim_C2_witness :
    normalize_text (some " ") = "" ∧ buildCue ⟨some " ", some 0, some 1⟩ = none := by
  have h : normalize_text (some " ") = "" := by
    simp [normalize_text, pyStrip, pySplit, joinSp, pyIsSpace]
  exact ⟨h, claim_C2.2.1 ⟨some " ", some 0, some 1⟩ h⟩

/-- C3: every cue built from any raw segment stream satisfies
`end > start` after repair. -/
theorem claim_C3 (segs : List Segment) (c : ℚ × ℚ × String) (hc : c ∈ buildCues segs) :
    c.1 < c.2.1 := by
  obtain ⟨s, hs, he⟩ := List.mem_filterMap.mp hc
  by_cases h : normalize_text s.text = ""
  · rw [buildCue_eq_none h] at he
    cases he
  · rw [buildCue_eq_some h] at he
    cases he
    exact cueOf_fst_lt s

theorem claim_C3_witness :
    ((1 : ℚ), (1.2 : ℚ), "a") ∈ buildCues [{ text := some "a", start := some 1, stop := some 1 }] ∧
    (1 : ℚ) < 1.2 := by
  have ht : normalize_text (some "a") = "a" := by
    simp [normalize_text, pyStrip, pySplit, joinSp, pyIsSpace]
  have hm : ((1 : ℚ), (1.2 : ℚ), "a") ∈
      buildCues [{ text := some "a", start := some 1, stop := some 1 }] := by
    simp [buildCues, buildCue, ht]
    norm_num
  exact ⟨hm, claim_C3 _ _ hm⟩

/-- C8 as stated is false: the builder never clamps a negative segment
start, so a collaborator segment with `start = -1` yields a cue whose
start is negative. -/
theorem claim_C8_counterexample :
    buildCues [{ text := some "a", start := some (-1 : ℚ), stop := some 2 }] =
      [((-1 : ℚ), (2 : ℚ), "a")] ∧ ¬ (0 ≤ (-1 : ℚ)) := by
  have ht : normalize_text (some "a") = "a" := by
    simp [normalize_text, pyStrip, pySplit, joinSp, pyIsSpace]
  constructor
  · simp [buildCues, buildCue, ht]
    norm_num
  · norm_num

/-- C8, amended: provided every raw segment's start time is
non-negative (as transcription timestamps are), every built cue has the
Cue shape: `start ≥ 0`, `end > start`, and a non-empty text that is a
fixed point of normalization. -/
theorem claim_C8 (segs : List Segment)
    (hpos : ∀ s ∈ segs, ∀ q : ℚ, s.start = some q → 0 ≤ q)
    (c : ℚ × ℚ × String) (hc : c ∈ buildCues segs) :
    0 ≤ c.1 ∧ c.1 < c.2.1 ∧ c.2.2 ≠ "" ∧ normalize_text (some c.2.2) = c.2.2 := by
  obtain ⟨s, hs, he⟩ := List.mem_filterMap.mp hc
  by_cases h : normalize_text s.text = ""
  · rw [buildCue_eq_none h] at he
    cases he
  · rw [buildCue_eq_some h] at he
    cases he
    refine ⟨?_, cueOf_fst_lt s, ?_, ?_⟩
    · simp only [cueOf]
      cases hq : s.start with
      | none => simp [hq]
      | some q =>
        simp only [hq, Option.getD_some]
        exact hpos s hs q hq
    · simpa [cueOf] using h
    · simp only [cueOf]
      exact normalize_text_idem s.text

theorem claim_C8_witness :
    (0 : ℚ) ≤ 1 ∧ (1 : ℚ) < 1.2 ∧ ("a" : String) ≠ "" ∧ normalize_text (some "a") = "a" := by
  have ht : normalize_text (some "a") = "a" := by
    simp [normalize_text, pyStrip, pySplit, joinSp, pyIsSpace]
  have hm : ((1 : ℚ), (1.2 : ℚ), "a") ∈
      buildCues [{ text := some "a", start := some 1, stop := some 1 }] := by
    simp [buildCues, buildCue, ht]
    norm_num
  exact claim_C8 [{ text := some "a", start := some 1, stop := some 1 }]
    (by
      intro s hs q hq
      rw [List.mem_singleton] at hs
      subst hs
      simp only at hq
      injection hq with hq2
      rw [← hq2]
      norm_num)
    ((1 : ℚ), (1.2 : ℚ), "a") hm

/-- Sequential concatenation of the strings passed to `handle.write`,
in order: the file content a sequence of writes produces. -/
def strConcat : List String → String
  | [] => ""
  | s :: rest => s ++ strConcat rest

/-- One cue block as written by the loop body of `write_webvtt`
(source lines 56-59): index line, timing line, verbatim text, blank
separator. -/
def webvtt_block (idx : ℕ) (c : ℚ × ℚ × String) : String :=
  toString idx ++ "\n" ++ format_timestamp c.1 ++ " --> " ++ format_timestamp c.2.1 ++
    "\n" ++ c.2.2 ++ "\n\n"

/-- The full file content `write_webvtt` produces: the `WEBVTT` header
and blank line, then one block per cue with `enumerate(cues, start=1)`
indices. -/
def write_webvtt (cues : List (ℚ × ℚ × String)) : String :=
  "WEBVTT\n\n" ++ strConcat ((cues.enumFrom 1).map (fun p => webvtt_block p.1 p.2))

/-- The §4.4 description of the cue blocks: for each cue, 1-indexed,
its numeric index, the timing line, the verbatim text, and a blank
separator, with the counter threaded explicitly. -/
def webvtt_blocks_spec : ℕ → List (ℚ × ℚ × String) → String
  | _, [] => ""
  | i, c :: cs => webvtt_block i c ++ webvtt_blocks_spec (i + 1) cs

/-- The §4.4 description of the whole file. -/
def write_webvtt_spec (cues : List (ℚ × ℚ × String)) : String :=
  "WEBVTT\n\n" ++ webvtt_blocks_spec 1 cues

theorem strConcat_enumFrom (cues : List (ℚ × ℚ × String)) : ∀ i : ℕ,
    strConcat ((cues.enumFrom i).map (fun p => webvtt_block p.1 p.2)) =
      webvtt_blocks_spec i cues := by
  induction cues with
  | nil => intro i; rfl
  | cons c cs ih =>
    intro i
    rw [show List.enumFrom i (c :: cs) = (i, c) :: List.enumFrom (i + 1) cs from rfl]
    rw [List.map_cons]
    rw [show strConcat (webvtt_block i c :: ((cs.enumFrom (i + 1)).map
      (fun p => webvtt_block p.1 p.2))) = webvtt_block i c ++ strConcat ((cs.enumFrom (i + 1)).map
      (fun p => webvtt_block p.1 p.2)) from rfl]
    rw [ih (i + 1)]
    rfl

/-- C4: for every cue list (the empty one included), the writer's file
content is the `WEBVTT` header line, a blank line, and then, for each
cue in order and numbered from 1, its index line, its
`start --> end` timing line in §4.1 format, its text verbatim, and a
blank separator; the spec's §4.4 enumeration is reproduced exactly. -/
theorem claim_C4 :
    (∀ cues : List (ℚ × ℚ × String), write_webvtt cues = write_webvtt_spec cues) ∧
    write_webvtt [] = "WEBVTT\n\n" ∧
    write_webvtt [((0 : ℚ), (1 : ℚ), "hello")] =
      "WEBVTT\n\n1\n00:00:00.000 --> 00:00:01.000\nhello\n\n" := by
  refine ⟨?_, rfl, ?_⟩
  · intro cues
    rw [write_webvtt, write_webvtt_spec, strConcat_enumFrom]
  · have h0 : format_timestamp 0 = "00:00:00.000" := by
      rw [format_timestamp_ms 0 0 (by norm_num)]
      decide
    have h1 : format_timestamp 1 = "00:00:01.000" := by
      rw [format_timestamp_ms 1 1000 (by norm_num)]
      decide
    rw [write_webvtt]
    rw [show (([((0 : ℚ), (1 : ℚ), "hello")].enumFrom 1).map (fun p => webvtt_block p.1 p.2)) =
      [webvtt_block 1 ((0 : ℚ), (1 : ℚ), "hello")] from rfl]
    rw [show strConcat [webvtt_block 1 ((0 : ℚ), (1 : ℚ), "hello")] =
      webvtt_block 1 ((0 : ℚ), (1 : ℚ), "hello") ++ "" from rfl]
    simp only [webvtt_block, h0, h1]
    decide

/-- Transcription summary (`info`) returned by the collaborator;
duck-typed fields modelled as optional. -/
structure Info where
  language : Option String
  language_probability : Option ℚ
  duration : Option ℚ

/-- The parsed command-line arguments of `parse_args`. -/
structure Args where
  input : String
  output : String
  metaOutput : Option String
  language : Option String
  model : String
  device : String
  computeType : String
  beamSize : ℤ
  noVadFilter : Bool

/-- One JSON scalar of the metadata record. -/
inductive MetaVal
  | nullV
  | strV (s : String)
  | numV (q : ℚ)
  | natV (n : ℕ)
deriving DecidableEq

/-- The metadata dict assembled in `main` (source lines 116-126), in
insertion order; `os.path.abspath` is abstracted as the identity on the
given paths. -/
def mkMetadata (a : Args) (info : Info) (cueCount : ℕ) : List (String × MetaVal) :=
  [("language", info.language.elim MetaVal.nullV MetaVal.strV),
   ("language_probability", info.language_probability.elim MetaVal.nullV MetaVal.numV),
   ("duration_seconds", info.duration.elim MetaVal.nullV MetaVal.numV),
   ("cue_count", MetaVal.natV cueCount),
   ("input", MetaVal.strV a.input),
   ("output", MetaVal.strV a.output),
   ("model", MetaVal.strV a.model),
   ("device", MetaVal.strV a.device),
   ("compute_type", MetaVal.strV a.computeType)]

/-- The §6 required metadata keys, in order. -/
def requiredKeys : List String :=
  ["language", "language_probability", "duration_seconds", "cue_count",
   "input", "output", "model", "device", "compute_type"]

/-- Environment facts `main` depends on: whether the input path is a
file, whether the collaborator imports, whether model construction
succeeds, the transcription outcome (`none` models a raised
exception), and whether each file write succeeds. -/
structure World where
  inputIsFile : Bool
  importOk : Bool
  loadOk : Bool
  transcription : Option (List Segment × Info)
  vttWriteOk : Bool
  metaWriteOk : Bool

/-- Observable outcome of one run of `main`: the returned exit code,
the content of each output file (`none` = the file was not completely
written), the JSON record printed as one line to standard output, and
the fixed prefix of any message printed to standard error. -/
structure RunResult where
  exitCode : ℕ
  vttContent : Option String
  metaContent : Option (List (String × MetaVal))
  stdoutLine : Option (List (String × MetaVal))
  stderrLine : Option String

/-- The control flow of `main` (source lines 70-132): validate the
input path, import the collaborator, construct the model, transcribe,
build cues, write the subtitle file, assemble the metadata, optionally
write it, print it, and return 0; every exception inside the `try`
block is caught, reported with the `Subtitle generation failed: `
prefix, and turned into return code 1. -/
def runMain (w : World) (a : Args) : RunResult :=
  if w.inputIsFile = false then
    { exitCode := 1, vttContent := none, metaContent := none, stdoutLine := none,
      stderrLine := some "Input file does not exist: " }
  else if w.importOk = false then
    { exitCode := 1, vttContent := none, metaContent := none, stdoutLine := none,
      stderrLine := some "Failed to import faster_whisper. Install dependency first. Error: " }
  else if w.loadOk = false then
    { exitCode := 1, vttContent := none, metaContent := none, stdoutLine := none,
      stderrLine := some "Subtitle generation failed: " }
  else
    match w.transcription with
    | none =>
      { exitCode := 1, vttContent := none, metaContent := none, stdoutLine := none,
        stderrLine := some "Subtitle generation failed: " }
    | some (segs, info) =>
      if w.vttWriteOk = false then
        { exitCode := 1, vttContent := none, metaContent := none, stdoutLine := none,
          stderrLine := some "Subtitle generation failed: " }
      else
        let cues := buildCues segs
        let meta := mkMetadata a info cues.length
        match a.metaOutput with
        | some _ =>
          if w.metaWriteOk = false then
            { exitCode := 1, vttContent := some (write_webvtt cues), metaContent := none,
              stdoutLine := none, stderrLine := some "Subtitle generation failed: " }
          else
            { exitCode := 0, vttContent := some (write_webvtt cues), metaContent := some meta,
              stdoutLine := some meta, stderrLine := none }
        | none =>
          { exitCode := 0, vttContent := some (write_webvtt cues), metaContent := none,
            stdoutLine := some meta, stderrLine := none }

/-- C6: a missing input file yields exit code 1, an error report, and
no output file; the exit code is always 0 or 1; and it is 0 exactly
when the input exists, the collaborator imports, the model loads,
transcription returns, and every requested write succeeds. -/
theorem claim_C6 :
    (∀ (w : World) (a : Args), w.inputIsFile = false →
      (runMain w a).exitCode = 1 ∧ (runMain w a).vttContent = none ∧
        (runMain w a).stderrLine ≠ none) ∧
    (∀ (w : World) (a : Args), (runMain w a).exitCode = 0 ∨ (runMain w a).exitCode = 1) ∧
    (∀ (w : World) (a : Args), (runMain w a).exitCode = 0 ↔
      (w.inputIsFile = true ∧ w.importOk = true ∧ w.loadOk = true ∧
        w.transcription ≠ none ∧ w.vttWriteOk = true ∧
        (a.metaOutput = none ∨ w.metaWriteOk = true))) := by
  refine ⟨?_, ?_, ?_⟩
  · intro w a h
    simp [runMain, h]
  · intro w a
    rcases w with ⟨inF, imp, load, tr, vttOk, metaOk⟩
    cases inF <;> cases imp <;> cases load <;> cases vttOk <;> cases metaOk <;>
      rcases tr with _ | ⟨segs, info⟩ <;> rcases hmo : a.metaOutput with _ | p <;>
        simp [runMain, hmo]
  · intro w a
    rcases w with ⟨inF, imp, load, tr, vttOk, metaOk⟩
    cases inF <;> cases imp <;> cases load <;> cases vttOk <;> cases metaOk <;>
      rcases tr with _ | ⟨segs, info⟩ <;> rcases hmo : a.metaOutput with _ | p <;>
        simp [runMain, hmo]

/-- Sample transcription summary with no detected fields. -/
def infoEx : Info := ⟨none, none, none⟩

/-- Sample transcription summary with detected fields. -/
def infoEn : Info := ⟨some "en", some 0.9, some 10⟩

/-- Sample parsed arguments with `--meta-output` omitted. -/
def argsEx : Args := ⟨"in.mp4", "out.vtt", none, none, "small", "cpu", "int8", 5, false⟩

/-- A world whose input file is missing. -/
def wMissing : World := ⟨false, true, true, some ([], infoEx), true, true⟩

/-- A world whose transcription raises. -/
def wTransFail : World := ⟨true, true, true, none, true, true⟩

/-- A world in which everything succeeds. -/
def wOk : World := ⟨true, true, true, some ([], infoEn), true, true⟩

theorem claim_C6_witness :
    (runMain wMissing argsEx).exitCode = 1 ∧ (runMain wMissing argsEx).vttContent = none ∧
      (runMain wMissing argsEx).stderrLine ≠ none :=
  claim_C6.1 wMissing argsEx rfl

/-- C7: when model construction or transcription raises, no subtitle
file is written, the error is reported with the fixed prefix, and the
exit code is 1; when the metadata write fails after the subtitle file
was written, the subtitle file is left in place (no cleanup) while the
run still reports the error and exits 1. -/
theorem claim_C7 :
    (∀ (w : World) (a : Args), w.inputIsFile = true → w.importOk = true →
      w.loadOk = false →
      runMain w a =
        { exitCode := 1, vttContent := none, metaContent := none,
          stdoutLine := none, stderrLine := some "Subtitle generation failed: " }) ∧
    (∀ (w : World) (a : Args), w.inputIsFile = true → w.importOk = true →
      w.loadOk = true → w.transcription = none →
      runMain w a =
        { exitCode := 1, vttContent := none, metaContent := none,
          stdoutLine := none, stderrLine := some "Subtitle generation failed: " }) ∧
    (∀ (w : World) (a : Args) (segs : List Segment) (info : Info) (p : String),
      w.inputIsFile = true → w.importOk = true → w.loadOk = true →
      w.transcription = some (segs, info) → w.vttWriteOk = true →
      a.metaOutput = some p → w.metaWriteOk = false →
      (runMain w a).exitCode = 1 ∧
      (runMain w a).vttContent = some (write_webvtt (buildCues segs)) ∧
      (runMain w a).stderrLine = some "Subtitle generation failed: ") := by
  refine ⟨?_, ?_, ?_⟩
  · intro w a h1 h2 h3
    simp [runMain, h1, h2, h3]
  · intro w a h1 h2 h3 h4
    simp [runMain, h1, h2, h3, h4]
  · intro w a segs info p h1 h2 h3 h4 h5 h6 h7
    simp [runMain, h1, h2, h3, h4, h5, h6, h7]

theorem claim_C7_witness :
    runMain wTransFail argsEx =
      { exitCode := 1, vttContent := none, metaContent := none, stdoutLine := none,
          stderrLine := some "Subtitle generation failed: " } :=
  claim_C7.2.1 wTransFail argsEx rfl rfl rfl rfl

/-- C9: on a successful run with `--meta-output` omitted, no metadata
file is written and no error occurs, the exit code is 0, standard
output still receives the single JSON metadata line, that record's
keys are exactly the required ones, and its `cue_count` equals the
number of cues written to the subtitle file. -/
theorem claim_C9 (w : World) (a : Args) (segs : List Segment) (info : Info)
    (h1 : w.inputIsFile = true) (h2 : w.importOk = true) (h3 : w.loadOk = true)
    (h4 : w.transcription = some (segs, info)) (h5 : w.vttWriteOk = true)
    (h6 : a.metaOutput = none) :
    (runMain w a).metaContent = none ∧
    (runMain w a).exitCode = 0 ∧
    (runMain w a).stderrLine = none ∧
    (runMain w a).stdoutLine = some (mkMetadata a info (buildCues segs).length) ∧
    (mkMetadata a info (buildCues segs).length).map Prod.fst = requiredKeys ∧
    (mkMetadata a info (buildCues segs).length).lookup "cue_count" =
      some (MetaVal.natV (buildCues segs).length) := by
  refine ⟨?_, ?_, ?_, ?_, ?_, ?_⟩ <;>
    simp [runMain, h1, h2, h3, h4, h5, h6, mkMetadata, requiredKeys, List.lookup]

theorem claim_C9_witness :
    (runMain wOk argsEx).metaContent = none ∧ (runMain wOk argsEx).exitCode = 0 := by
  have h := claim_C9 wOk argsEx [] infoEn rfl rfl rfl rfl rfl rfl
  exact ⟨h.1, h.2.1⟩
